import Mathlib

/-!
Verification of the LAS 2.0 codec (`LAS.py`) of the ImageToLithology
repository.  The Python code is shallowly embedded: strings are `List Char`
(`Str`), Python's `str.split(sep, 1)` / `str.rsplit(sep, 1)` together with
tuple unpacking become `splitOnce` / `rsplitOnce` returning `Option`
(`none` models the `ValueError` raised when the separator is absent),
floating point data values become `ℚ` and `NaN` becomes `none : Option ℚ`.
-/

set_option autoImplicit false

namespace LASpy

/-- Strings of the embedded program are lists of characters. -/
abbrev Str := List Char

/-- Characters stripped by Python's `str.strip()` (ASCII whitespace). -/
def isPySpace (c : Char) : Bool :=
  c = ' ' || c = '\t' || c = '\n' || c = '\x0d' || c = '\x0b' || c = '\x0c'

/-- Model of Python `str.lstrip()`. -/
def lstrip (s : Str) : Str := s.dropWhile isPySpace

/-- Model of Python `str.rstrip()`. -/
def rstrip (s : Str) : Str := (s.reverse.dropWhile isPySpace).reverse

/-- Model of Python `str.strip()`. -/
def strip (s : Str) : Str := rstrip (lstrip s)

/-- Model of Python `str.startswith(pre)`. -/
def startswith : Str → Str → Bool
  | [], _ => true
  | _ :: _, [] => false
  | p :: ps, c :: cs => p = c && startswith ps cs

/-- Model of `a, b = s.split(sep, 1)`: split at the first occurrence of
`sep`; `none` models the `ValueError` raised by unpacking when `sep` does
not occur in `s`. -/
def splitOnce (sep : Char) : Str → Option (Str × Str)
  | [] => none
  | c :: cs =>
    if c = sep then some ([], cs)
    else (splitOnce sep cs).map (fun p => (c :: p.1, p.2))

/-- Model of `a, b = s.rsplit(sep, 1)`: split at the last occurrence of
`sep`; `none` models the `ValueError` raised by unpacking when `sep` does
not occur in `s`. -/
def rsplitOnce (sep : Char) (s : Str) : Option (Str × Str) :=
  (splitOnce sep s.reverse).map (fun p => (p.2.reverse, p.1.reverse))

/-- Model of Python `line.split('\n')[0]` (drop the line terminator). -/
def stripNL (s : Str) : Str := s.takeWhile (fun c => c ≠ '\n')

/-- Model of `line.replace('\t', ' ')` used by `LASReader._getheaderlines`. -/
def replaceTab (s : Str) : Str := s.map (fun c => if c = '\t' then ' ' else c)

/-- Model of `'\n'.join(lines)`. -/
def joinNL : List Str → Str
  | [] => []
  | [l] => l
  | l :: ls => l ++ '\n' :: joinNL ls

/-- A run of `n` spaces (`" " * n`). -/
def spacesRun (n : Nat) : Str := List.replicate n ' '

/-- A parsed LAS line: the dict with keys `MNEM`, `UNIT`, `DATA`, `DESC`
built by `LASReader._parseline`. -/
structure ParsedLine where
  MNEM : Str
  UNIT : Str
  DATA : Str
  DESC : Str
deriving DecidableEq, Repr

/-- Model of `LASReader._splitline`:
`rest, desc = line.rsplit(":", 1)`; `mnem, rest = rest.split(".", 1)`;
`unit, data = rest.split(" ", 1)`.  `none` models the `ValueError` raised
when one of the separators is absent. -/
def splitline (line : Str) : Option (Str × Str × Str × Str) :=
  match rsplitOnce ':' line with
  | none => none
  | some (rest, desc) =>
    match splitOnce '.' rest with
    | none => none
    | some (mnem, rest2) =>
      match splitOnce ' ' rest2 with
      | none => none
      | some (unit, data) => some (mnem, unit, data, desc)

/-- Model of `LASReader._getlinelayout` applied to the 4-tuple returned by
`_splitline`: the six whitespace-run lengths
`len(x) - len(x.lstrip())` and `len(x.lstrip()) - len(x.lstrip().rstrip())`
for `x` among `mnem`, `data`, `desc`. -/
def getlinelayout (mnem _unit data desc : Str) : List Nat :=
  [mnem.length - (lstrip mnem).length,
   (lstrip mnem).length - (rstrip (lstrip mnem)).length,
   data.length - (lstrip data).length,
   (lstrip data).length - (rstrip (lstrip data)).length,
   desc.length - (lstrip desc).length,
   (lstrip desc).length - (rstrip (lstrip desc)).length]

/-- Model of `LASReader._parseline(line, withlayout=True)`: split the line,
strip every field, and return the stripped fields together with the layout
of the unstripped fields. -/
def parseline (line : Str) : Option (ParsedLine × List Nat) :=
  match splitline line with
  | none => none
  | some (mnem, unit, data, desc) =>
    some ({ MNEM := strip mnem, UNIT := strip unit,
            DATA := strip data, DESC := strip desc },
          getlinelayout mnem unit data desc)

/-- `LASWriter.MINIMALLINELAYOUT`. -/
def MINIMALLINELAYOUT : List Nat := [0, 0, 1, 0, 0, 0]

/-- Model of `LASWriter._composeline`: instantiate the pattern
`"{0[0]}{MNEM}{0[1]}.{UNIT}{0[2]}{DATA}{0[3]}:{0[4]}{DESC}{0[5]}"`
with space runs of the layout's lengths; an empty (falsy) layout is
replaced by `MINIMALLINELAYOUT`. -/
def composeline (p : ParsedLine) (linelayout : List Nat) : Str :=
  let l := if linelayout.isEmpty then MINIMALLINELAYOUT else linelayout
  spacesRun (l.getD 0 0) ++ p.MNEM ++ spacesRun (l.getD 1 0) ++
    '.' :: (p.UNIT ++ spacesRun (l.getD 2 0) ++ p.DATA ++
      spacesRun (l.getD 3 0) ++ ':' :: (spacesRun (l.getD 4 0) ++
        p.DESC ++ spacesRun (l.getD 5 0)))

/-! ### Data section model (`LASReader.read`, lines 541-554)

Float values are modelled as `ℚ`; the IEEE `NaN` produced by
`_replacenullvalues` is modelled as `none : Option ℚ`. -/

/-- Exact subtraction on `ℚ`, written through `mkRat` so that it evaluates
by kernel reduction; `qsub_eq_sub` below proves it equal to `a - b`. -/
def qsub (a b : ℚ) : ℚ := mkRat (a.num * b.den - b.num * a.den) (a.den * b.den)

/-- Model of `LASReader._replacenullvalues`: entries equal to the declared
null value become `NaN` (`none`). -/
def replacenullvalues (data : List ℚ) (nullvalue : ℚ) : List (Option ℚ) :=
  data.map (fun x => if x = nullvalue then none else some x)

/-- Model of `LASReader._reshapeflatdata`:
`np.reshape(flatdata, (-1, ncurves)).T`, so `data[i][j] = flat[j*nc + i]`.
`none` models the `ValueError` numpy raises when the length is not a
multiple of `ncurves` (including `ncurves = 0` on nonempty data). -/
def reshapeflatdata (flat : List (Option ℚ)) (nc : Nat) :
    Option (List (List (Option ℚ))) :=
  if nc ≠ 0 ∧ flat.length % nc = 0 then
    some ((List.range nc).map (fun i =>
      (List.range (flat.length / nc)).map (fun j => flat.getD (j * nc + i) none)))
  else
    none

/-- Model of `LASReader._reorderdata`: `newdata[:, ::-1]` reverses the
sample order of every curve. -/
def reorderdata (data : List (List (Option ℚ))) : List (List (Option ℚ)) :=
  data.map List.reverse

/-- IEEE subtraction with `NaN` (`none`) absorbing, on decoded entries. -/
def subNan : Option ℚ → Option ℚ → Option ℚ
  | some a, some b => some (qsub a b)
  | _, _ => none

/-- Model of `stepvalue < 0` where `stepvalue` may be `NaN`: every
comparison with `NaN` is false. -/
def nanLtZero : Option ℚ → Bool
  | some q => q < 0
  | none => false

/-- The effective reversal decision of `LASReader.read` (lines 550-553):
when the declared step equals the null value or zero it is replaced by
`data[0][1] - data[0][0]`; `none` models the `IndexError` raised when that
inference needs a missing sample. -/
def effStepNeg (data : List (List (Option ℚ))) (nullvalue stepvalue : ℚ) :
    Option Bool :=
  if stepvalue = nullvalue ∨ stepvalue = 0 then
    match (data.headD []).get? 1, (data.headD []).get? 0 with
    | some b, some a => some (nanLtZero (subNan b a))
    | _, _ => none
  else
    some (decide (stepvalue < 0))

/-- Model of the data pipeline of `LASReader.read` (lines 546-554), from
the flattened numeric values onwards: replace nulls, reshape, and reverse
the sample order when the effective step is negative.  `none` models an
uncaught exception. -/
def readData (flat : List ℚ) (nc : Nat) (nullvalue stepvalue : ℚ) :
    Option (List (List (Option ℚ))) :=
  match reshapeflatdata (replacenullvalues flat nullvalue) nc with
  | none => none
  | some data =>
    match effStepNeg data nullvalue stepvalue with
    | none => none
    | some neg => some (if neg then reorderdata data else data)

/-- The numeric entries of a decoded curve, in order (missing samples
skipped). -/
def numericEntries (row : List (Option ℚ)) : List ℚ := row.filterMap id

/-! ### Header assembly model (`LASReader._getheader`, lines 328-393) -/

/-- Decimal digit characters, least significant first
(`natStrRevAux (n+1) n` writes `n` in reverse; the fuel `n+1` always
exceeds the number of digits). -/
def natStrRevAux : Nat → Nat → Str
  | 0, _ => []
  | fuel + 1, n =>
    if n < 10 then [Nat.digitChar n]
    else Nat.digitChar (n % 10) :: natStrRevAux fuel (n / 10)

/-- Model of Python `str(n)` for a natural number. -/
def natStr (n : Nat) : Str := (natStrRevAux (n + 1) n).reverse

/-- Model of `'_{:0>4}'.format(count)`: decimal digits of `count`,
left-padded with `'0'` to width 4, preceded by `'_'`. -/
def pad4 (n : Nat) : Str :=
  List.replicate (4 - (natStr n).length) '0' ++ natStr n

/-- The candidate key tried for a repeated mnemonic: `old` itself for
`count = 0`, and `old + '_{:0>4}'.format(count)` afterwards. -/
def candName (old : Str) : Nat → Str
  | 0 => old
  | c + 1 => old ++ '_' :: pad4 (c + 1)

/-- Model of the `while new_mnem in section` loop of `_getheader`
(lines 366-370): try `candName old 0`, `candName old 1`, … until a
candidate is not among the existing keys.  The fuel `keys.length + 1`
always suffices because the candidates are pairwise distinct, so the loop
in the source terminates within that many tests; the fuel-exhausted branch
is unreachable in every use. -/
def renameAux (keys : List Str) (old : Str) : Nat → Nat → Str
  | 0, count => candName old count
  | fuel + 1, count =>
    if candName old count ∈ keys then renameAux keys old fuel (count + 1)
    else candName old count

/-- The unique key stored for a line whose mnemonic is `old`, given the
keys already present in the section. -/
def rename (keys : List Str) (old : Str) : Str :=
  renameAux keys old (keys.length + 1) 0

/-- Model of the per-section parsing loop of `_getheader` (lines 353-373):
parse every buffered line, keying it by its (possibly suffixed) mnemonic;
`none` models the exception raised by the first line that fails to parse.
The parallel `sectionlayout` dict is built from the same keys and layouts
and is not observed by any claim, so it is not carried here. -/
def buildSectionAux (acc : List (Str × ParsedLine)) :
    List Str → Option (List (Str × ParsedLine))
  | [] => some acc
  | l :: ls =>
    match parseline l with
    | none => none
    | some (p, _) =>
      let key := rename (acc.map Prod.fst) p.MNEM
      buildSectionAux (acc ++ [(key, p)]) ls

/-- Parse the buffered lines of one section. -/
def buildSection (lines : List Str) : Option (List (Str × ParsedLine)) :=
  buildSectionAux [] lines

/-- A stored header section: either an ordered dict of parsed lines or a
plain string (the raw fallback `'\n'.join(lines)`, and `''` for a section
with no lines). -/
inductive SectionVal where
  | structured (sec : List (Str × ParsedLine))
  | str (s : Str)
deriving DecidableEq, Repr

/-- Model of the `try`/`except` body of `_getheader` for one section
(lines 352-381): if every buffered line parses, store the ordered dict
(`''` when there are no lines); if any line fails, store the raw lines
joined by newlines. -/
def processSection (lines : List Str) : SectionVal :=
  match buildSection lines with
  | none => .str (joinNL lines)
  | some [] => .str []
  | some sec => .structured sec

/-- Model of the second loop of `_getheader`: each section is processed
independently (the `try`/`except` is inside the loop). -/
def processSections (secs : List (Str × List Str)) : List (Str × SectionVal) :=
  secs.map (fun kv => (kv.1, processSection kv.2))

/-! ### Header lexing (`LASReader._getheaderlines`, lines 279-286)

`fileobject.readline()` returns the next line while one is available and
the empty string forever after end-of-file, so the `while` loop of the
source need not terminate; the model is fuel-indexed and `none` means the
loop has not exited within `fuel` iterations. -/

/-- One `readline()` step on the remaining file contents. -/
def readlineM : List Str → Str × List Str
  | [] => ([], [])
  | l :: ls => (l, ls)

/-- The `while not line.lstrip().startswith('~A')` loop of
`_getheaderlines`: non-marker lines are buffered with tabs replaced by
spaces, and the marker line itself is appended unchanged. -/
def getheaderlinesAux : Nat → Str → List Str → List Str → Option (List Str)
  | 0, _, _, _ => none
  | fuel + 1, line, remaining, acc =>
    if startswith "~A".data (lstrip line) then some (acc ++ [line])
    else
      let s := readlineM remaining
      getheaderlinesAux fuel s.1 s.2 (acc ++ [replaceTab line])

/-- Model of `LASReader._getheaderlines` on a file whose lines are
`file`; `none` means the source's loop is still running after `fuel`
iterations (it runs forever when no line has the `~A` prefix). -/
def getheaderlines (fuel : Nat) (file : List Str) : Option (List Str) :=
  let s := readlineM file
  getheaderlinesAux fuel s.1 s.2 []

/-! ### Header-line classification (first loop of `_getheader`,
lines 333-349), with ordered dicts as association lists whose insertion
order is the list order: assigning to an existing key keeps its position. -/

/-- Ordered-dict assignment `d[k] = v`. -/
def odInsert {κ α : Type} [DecidableEq κ] (d : List (κ × α)) (k : κ) (v : α) :
    List (κ × α) :=
  match d with
  | [] => [(k, v)]
  | (k', v') :: rest =>
    if k' = k then (k, v) :: rest else (k', v') :: odInsert rest k v

/-- Ordered-dict update of an existing key's value in place (used to model
`currentsection.append(...)`, which mutates the list object stored in the
dict). -/
def odUpdate {κ α : Type} [DecidableEq κ] (d : List (κ × α)) (k : κ) (f : α → α) :
    List (κ × α) :=
  match d with
  | [] => []
  | (k', v') :: rest =>
    if k' = k then (k, f v') :: rest else (k', v') :: odUpdate rest k f

/-- Ordered-dict lookup `d[k]`. -/
def odLookup {κ α : Type} [DecidableEq κ] (d : List (κ × α)) (k : κ) : Option α :=
  match d with
  | [] => none
  | (k', v') :: rest => if k' = k then some v' else odLookup rest k

/-- Model of `sectionname.split('~')[1][0].upper()`: the text between the
first `'~'` and the following `'~'` (if any) must be nonempty, and its
first character is upper-cased; `none` models the `IndexError` raised when
nothing follows the first `'~'`. -/
def sectionKey (sectionname : Str) : Option Str :=
  match splitOnce '~' sectionname with
  | none => none
  | some (_, rest) =>
    match rest.takeWhile (fun c => c ≠ '~') with
    | [] => none
    | c :: _ => some [c.toUpper]

/-- The mutable state of the first loop of `_getheader`. -/
structure GHState where
  header : List (Str × List Str)
  names : List (Str × Str)
  comments : List (Nat × Str)
  current : Option Str
  linecount : Nat
deriving DecidableEq, Repr

/-- The initial state of the first loop of `_getheader`. -/
def initGHState : GHState := ⟨[], [], [], none, 0⟩

/-- Model of the first loop of `_getheader` (lines 336-349): empty strings
are skipped, comment lines are recorded by line count, `'~'` lines open a
new section, and every other line is appended to the current section's
buffer.  `Except.error ()` models the uncaught exceptions of the loop:
`AttributeError` when a line is appended while no section is open
(`currentsection` is `None`), and `IndexError` from the key extraction. -/
def classifyLines : List Str → GHState → Except Unit GHState
  | [], st => .ok st
  | line :: ls, st =>
    if line = [] then classifyLines ls st
    else if startswith "#".data (lstrip line) then
      classifyLines ls { st with
        comments := odInsert st.comments st.linecount (stripNL line),
        linecount := st.linecount + 1 }
    else if startswith "~".data (lstrip line) then
      match sectionKey (stripNL line) with
      | none => .error ()
      | some key =>
        classifyLines ls { st with
          header := odInsert st.header key [],
          names := odInsert st.names key (stripNL line),
          current := some key,
          linecount := st.linecount + 1 }
    else
      match st.current with
      | none => .error ()
      | some key =>
        classifyLines ls { st with
          header := odUpdate st.header key (fun b => b ++ [stripNL line]),
          linecount := st.linecount + 1 }

/-! ### Header rendering (`LASWriter._headertostring`, lines 912-977) -/

/-- Model of `while len(lines) in comments: lines.append(comments[len(lines)])`.
Each iteration consumes a distinct key of the finite dict, so
`comments.length` iterations always suffice and the fuel-exhausted branch
is unreachable. -/
def replayCommentsAux (comments : List (Nat × Str)) : Nat → List Str → List Str
  | 0, lines => lines
  | fuel + 1, lines =>
    match odLookup comments lines.length with
    | some c => replayCommentsAux comments fuel (lines ++ [c])
    | none => lines

/-- Replay the comments recorded against the next output-line indices. -/
def replayComments (comments : List (Nat × Str)) (lines : List Str) : List Str :=
  replayCommentsAux comments comments.length lines

/-- Model of `line.split('\n')` (full split). -/
def splitNLAll : Str → List Str
  | [] => [[]]
  | c :: cs =>
    if c = '\n' then [] :: splitNLAll cs
    else
      match splitNLAll cs with
      | [] => [[c]]
      | l :: ls => (c :: l) :: ls

/-- Emit one section body: raw strings are re-split on newlines and copied
verbatim, structured sections are composed line by line through
`_composeline` with the looked-up layout (`none`, modelled by the empty
layout, selects the minimal layout).  `none` models the `KeyError` raised
when a supplied layout dict lacks a required key. -/
def emitSection (layout : List (Str × List (Str × List Nat)))
    (uselayout : Bool) (comments : List (Nat × Str)) (sectionkey : Str) :
    SectionVal → List Str → Option (List Str)
  | .str s, lines =>
    some (splitNLAll s |>.foldl (fun acc l => replayComments comments acc ++ [l]) lines)
  | .structured sec, lines =>
    sec.foldlM (fun acc kv =>
      let st := replayComments comments acc
      if uselayout then
        match odLookup layout sectionkey with
        | none => none
        | some seclayout =>
          match odLookup seclayout kv.1 with
          | none => none
          | some ll => some (st ++ [composeline kv.2 ll])
      else
        some (st ++ [composeline kv.2 []])) lines

/-- The section-emission loop of `LASWriter._headertostring`
(lines 955-971): replay pending comments, skip falsy sections, emit each
remaining section's title line and body. -/
def headerBody (header : List (Str × SectionVal)) (names : List (Str × Str))
    (uselayout : Bool) (layout : List (Str × List (Str × List Nat)))
    (comments : List (Nat × Str)) : Option (List Str) :=
  header.foldlM (fun lines kv =>
    let lines := replayComments comments lines
    match kv.2 with
    | .str [] => some lines
    | .structured [] => some lines
    | sec =>
      match odLookup names kv.1 with
      | none => none
      | some title => emitSection layout uselayout comments kv.1 sec (lines ++ [title])) []

/-- Model of `LASWriter._headertostring`: replay comments, emit each
nonempty section's title line and body, then always append the data
marker's title `sectionnames["A"]` last.  A falsy (`[]`) `sectionnames` or
`layout` argument selects the documented defaults; `none` models the
`KeyError` raised when `sectionnames` lacks a needed key. -/
def headertostring (header : List (Str × SectionVal))
    (sectionnames : List (Str × Str)) (layout : List (Str × List (Str × List Nat)))
    (comments : List (Nat × Str)) : Option Str :=
  let names := if sectionnames.isEmpty then
      header.map (fun kv => (kv.1, '~' :: kv.1)) else sectionnames
  let uselayout := !layout.isEmpty
  match headerBody header names uselayout layout comments with
  | none => none
  | some body =>
    match odLookup names "A".data with
    | none => none
    | some markertitle =>
      some (joinNL (replayComments comments body ++ [markertitle]))

/-! ### Numeric literals (`float(...)` and `'{:>10.8g}'.format(...)`)

`float()` of a plain decimal literal and the `%g`-style formatting used by
`LASWriter._datatostring` are modelled exactly over `ℚ`.  IEEE-754
rounding is not modelled: every literal these models are evaluated at in
the theorems below is a dyadic rational that binary64 represents exactly,
so `float()` and the model agree there. -/

/-- Decimal digit test (`'0'` to `'9'`). -/
def isDig (c : Char) : Bool := 48 ≤ c.toNat && c.toNat ≤ 57

/-- Value of a decimal digit character. -/
def dv (c : Char) : Nat := c.toNat - 48

/-- Value of a nonempty string of decimal digits. -/
def digitsVal (s : Str) : Nat := s.foldl (fun a c => a * 10 + dv c) 0

/-- Model of Python `float(s)` on plain decimal literals
(`[+-]digits[.digits]`, at least one digit): the exact rational value;
`none` models the `ValueError` on anything else. -/
def parseDecimal (s : Str) : Option ℚ :=
  let sgn : Bool × Str :=
    match s with
    | '-' :: r => (true, r)
    | '+' :: r => (false, r)
    | r => (false, r)
  let t := sgn.2
  match splitOnce '.' t with
  | none =>
    if t ≠ [] ∧ t.all isDig then
      some (if sgn.1 then -(mkRat (digitsVal t) 1) else mkRat (digitsVal t) 1)
    else none
  | some (ip, fp) =>
    if (ip ≠ [] ∨ fp ≠ []) ∧ ip.all isDig ∧ fp.all isDig then
      some (if sgn.1 then -(mkRat (digitsVal (ip ++ fp)) (10 ^ fp.length))
            else mkRat (digitsVal (ip ++ fp)) (10 ^ fp.length))
    else none

/-- Number of decimal digits of `n` (`1` for `0`). -/
def ndigits (n : Nat) : Nat := (natStr n).length

/-- Least `k ≥ 1` with `num * 10 ^ k ≥ den`, searched with sufficient
fuel (`ndigits den + 1` always suffices for `num ≥ 1`). -/
def smallestScaleAux (num den : Nat) : Nat → Nat → Nat
  | 0, k => k
  | fuel + 1, k => if num * 10 ^ k ≥ den then k else smallestScaleAux num den fuel (k + 1)

/-- Floor of `log10 (num / den)` for positive `num / den`. -/
def qLog10 (num den : Nat) : Int :=
  if num ≥ den then Int.ofNat (ndigits (num / den) - 1)
  else -Int.ofNat (smallestScaleAux num den (ndigits den + 1) 1)

/-- Round-half-even of `n / d` (`d > 0`) to a natural number, as used by
IEEE-style formatting. -/
def rheNat (n d : Nat) : Nat :=
  let f := n / d
  let r := n % d
  if 2 * r < d then f
  else if 2 * r > d then f + 1
  else if f % 2 = 0 then f else f + 1

/-- Strip trailing `'0'` characters. -/
def rstripZeros (s : Str) : Str := (s.reverse.dropWhile (fun c => c = '0')).reverse

/-- Model of Python `'{:.Pg}'.format(x)` (general floating-point format
with `P` significant digits): round to `P` significant digits, then use
fixed notation when the decimal exponent `e` satisfies `-4 ≤ e < P` and
scientific notation otherwise, stripping trailing fractional zeros. -/
def pyFormatG (prec : Nat) (q : ℚ) : Str :=
  let P := max prec 1
  if q = 0 then ['0']
  else
    let num := q.num.natAbs
    let den := q.den
    let e0 := qLog10 num den
    let m : Int := (P : Int) - 1 - e0
    let frac : Nat × Nat :=
      if 0 ≤ m then (num * 10 ^ m.toNat, den) else (num, den * 10 ^ (-m).toNat)
    let scaled := rheNat frac.1 frac.2
    let de : Nat × Int := if 10 ^ P ≤ scaled then (scaled / 10, e0 + 1) else (scaled, e0)
    let ds := natStr de.1
    let body :=
      if -4 ≤ de.2 ∧ de.2 < (P : Int) then
        if 0 ≤ de.2 then
          let ip := ds.take (de.2.toNat + 1)
          let fp := rstripZeros (ds.drop (de.2.toNat + 1))
          if fp = [] then ip else ip ++ '.' :: fp
        else
          '0' :: '.' :: (List.replicate ((-de.2).toNat - 1) '0' ++ rstripZeros ds)
      else
        let mant :=
          match rstripZeros ds with
          | [] => ['0']
          | c :: [] => [c]
          | c :: rest => c :: '.' :: rest
        let esign := if de.2 < 0 then '-' else '+'
        let eabs := natStr (de.2.natAbs)
        mant ++ 'e' :: esign :: (if eabs.length < 2 then '0' :: eabs else eabs)
    if q.num < 0 then '-' :: body else body

/-- The token emitted by `LASWriter._datatostring` for one value: `NaN`
entries are first replaced by the null value (`newdata[isnan] = nullvalue`),
then formatted with `'{:>10.8g}'`; the width-10 alignment only adds
surrounding spaces, so the whitespace-delimited token is the bare `%.8g`
rendering. -/
def encodeToken (entry : Option ℚ) (nullvalue : ℚ) : Str :=
  pyFormatG 8 (entry.getD nullvalue)

/-- The full fixed-width field for one value (`'{:>10.8g}'`). -/
def formatValue (entry : Option ℚ) (nullvalue : ℚ) : Str :=
  let t := encodeToken entry nullvalue
  List.replicate (10 - t.length) ' ' ++ t

/-! ### Layout engine (`LASWriter.getprettyheaderlayout`, lines 675-800) -/

/-- A line-element style dict: the optional `'allign'` entry and the
margins, whose absent entries default to `0` via `style.get(..., 0)`. -/
structure Style where
  allign : Option Str
  leftmargin : Nat
  rightmargin : Nat
deriving DecidableEq, Repr

/-- Python truthiness of `style.get('allign')`. -/
def truthyAllign (s : Style) : Bool :=
  match s.allign with
  | none => false
  | some a => !a.isEmpty

/-- `LASWriter.DEFAULTMNEMSTYLE`. -/
def DEFAULTMNEMSTYLE : Style := ⟨some "left".data, 1, 0⟩

/-- `LASWriter.DEFAULTDATASTYLE`. -/
def DEFAULTDATASTYLE : Style := ⟨some "left".data, 1, 1⟩

/-- `LASWriter.DEFAULTDESCSTYLE` (its `'righmargin'` key is misspelled in
the source, so the right margin read through `get('rightmargin', 0)`
is 0). -/
def DEFAULTDESCSTYLE : Style := ⟨some "left".data, 1, 0⟩

/-- Model of `LASWriter._getspaces`: distribute `spaces` slack around a
line element according to its alignment, adding the margins. -/
def getspaces (style : Style) (spaces : Nat) : Nat × Nat :=
  if style.allign = some "left".data then
    (style.leftmargin, style.rightmargin + spaces)
  else if style.allign = some "center".data then
    (style.leftmargin + spaces / 2, style.rightmargin + (spaces + 1) / 2)
  else if style.allign = some "right".data then
    (style.leftmargin + spaces, style.rightmargin)
  else
    (style.leftmargin, style.rightmargin)

/-- The four per-field length arrays of one section
(`sizearray["MNEM"]`, … as numpy arrays). -/
structure SizeArrs where
  m : List Nat
  u : List Nat
  d : List Nat
  ds : List Nat
deriving DecidableEq, Repr

/-- The length arrays of one structured section. -/
def sizeArrOf (sec : List (Str × ParsedLine)) : SizeArrs :=
  ⟨sec.map (fun kv => kv.2.MNEM.length), sec.map (fun kv => kv.2.UNIT.length),
   sec.map (fun kv => kv.2.DATA.length), sec.map (fun kv => kv.2.DESC.length)⟩

/-- `np.hstack` of the per-section length arrays. -/
def hstackSizeArrs (l : List SizeArrs) : SizeArrs :=
  ⟨l.flatMap SizeArrs.m, l.flatMap SizeArrs.u, l.flatMap SizeArrs.d, l.flatMap SizeArrs.ds⟩

/-- `np.max` of a length array (the arrays are nonempty wherever the
source evaluates the maximum). -/
def natMax (l : List Nat) : Nat := l.foldl max 0

/-- The structured, nonempty sections of a header — the ones not skipped
by `if isinstance(section, basestring) or not section: continue`. -/
def structuredSecs (header : List (Str × SectionVal)) :
    List (Str × List (Str × ParsedLine)) :=
  header.filterMap (fun kv =>
    match kv.2 with
    | .structured (x :: xs) => some (kv.1, x :: xs)
    | _ => none)

/-- The `dataleft` vector of one section (lines 751-760): the positional
offset pushing DATA into a shared column. -/
def dataleftOf (allignmnem alligndata : Bool) (msz sz : SizeArrs) : List Nat :=
  if !alligndata then sz.m.map (fun _ => 0)
  else if allignmnem then sz.u.map (fun s => natMax msz.u - s)
  else (List.zipWith (· + ·) sz.m sz.u).map
    (fun s => natMax (List.zipWith (· + ·) msz.m msz.u) - s)

/-- The `descleft` vector of one section (lines 762-771): the positional
offset pushing DESC into a shared column, zeroed when DESC has no
(truthy) alignment or DATA has one. -/
def descleftOf (allignmnem alligndata alligndesc : Bool) (msz sz : SizeArrs) :
    List Nat :=
  if !alligndesc || alligndata then sz.m.map (fun _ => 0)
  else if allignmnem then (List.zipWith (· + ·) sz.u sz.d).map
    (fun s => natMax (List.zipWith (· + ·) msz.u msz.d) - s)
  else (List.zipWith (· + ·) (List.zipWith (· + ·) sz.m sz.u) sz.d).map
    (fun s => natMax (List.zipWith (· + ·) (List.zipWith (· + ·) msz.m msz.u) msz.d) - s)

/-- The six-element layout of every line of one section (lines 789-797):
for MNEM, DATA and DESC in turn, distribute the slack to the element's
maximum width per its style and add the positional offset to the left
count. -/
def sectionLayoutList (mnemstyle datastyle descstyle : Style) (msz : SizeArrs)
    (dataleft descleft : List Nat) (sec : List (Str × ParsedLine)) :
    List (Str × List Nat) :=
  (sec.zip (dataleft.zip descleft)).map (fun x =>
    let p := x.1.2
    let ms := getspaces mnemstyle (natMax msz.m - p.MNEM.length)
    let das := getspaces datastyle (natMax msz.d - p.DATA.length)
    let des := getspaces descstyle (natMax msz.ds - p.DESC.length)
    (p.MNEM, [ms.1, ms.2, das.1 + x.2.1, das.2, des.1 + x.2.2, des.2]))

/-- Model of `LASWriter.getprettyheaderlayout`: per structured section,
compute the slack and offset vectors (against the global size arrays when
`uniformsections` holds, else the section's own) and build the per-line
layouts, keyed by each line's `MNEM` (`sectionlayout[line["MNEM"]] = ...`,
a dict assignment, hence `odInsert`). -/
def getprettyheaderlayout (header : List (Str × SectionVal))
    (mnemstyleO datastyleO descstyleO : Option Style) (uniformO : Option Bool) :
    List (Str × List (Str × List Nat)) :=
  let mnemstyle := mnemstyleO.getD DEFAULTMNEMSTYLE
  let datastyle := datastyleO.getD DEFAULTDATASTYLE
  let descstyle := descstyleO.getD DEFAULTDESCSTYLE
  let uniform := uniformO.getD true
  let allignmnem := truthyAllign mnemstyle
  let alligndata := truthyAllign datastyle
  let alligndesc := truthyAllign descstyle
  let ss := structuredSecs header
  let usz := hstackSizeArrs (ss.map (fun kv => sizeArrOf kv.2))
  ss.map (fun kv =>
    let sz := sizeArrOf kv.2
    let msz := if uniform then usz else sz
    let dataleft := dataleftOf allignmnem alligndata msz sz
    let descleft := descleftOf allignmnem alligndata alligndesc msz sz
    (kv.1, (sectionLayoutList mnemstyle datastyle descstyle msz dataleft descleft kv.2).foldl
      (fun d e => odInsert d e.1 e.2) []))

/-! ### Auxiliary definitions used only in proofs -/

/-- Value of a little-endian digit string (proof helper for `natStr`). -/
def valLE : Str → Nat
  | [] => 0
  | c :: cs => dv c + 10 * valLE cs

/-- The keys produced for `k` consecutive lines sharing the mnemonic `M`. -/
def keysList (M : Str) (k : Nat) : List Str := (List.range k).map (candName M)

/-! ## Lemmas -/

theorem qsub_eq_sub (a b : ℚ) : qsub a b = a - b := by
  have ha : (a.den : ℚ) ≠ 0 := by exact_mod_cast a.den_nz
  have hb : (b.den : ℚ) ≠ 0 := by exact_mod_cast b.den_nz
  rw [qsub, Rat.mkRat_eq_div]
  conv_rhs => rw [← Rat.num_div_den a, ← Rat.num_div_den b]
  rw [div_sub_div _ _ ha hb]
  push_cast
  ring_nf

theorem headD_map_reverse (l : List (List (Option ℚ))) :
    ((l.map List.reverse).headD []) = (l.headD []).reverse := by
  cases l <;> rfl

theorem numericEntries_reverse (r : List (Option ℚ)) :
    numericEntries r.reverse = (numericEntries r).reverse := by
  simp [numericEntries]

theorem sorted_ge_reverse (l : List ℚ) (h : List.Sorted (· ≥ ·) l) :
    List.Sorted (· ≤ ·) l.reverse := by
  rw [List.Sorted, List.pairwise_reverse]
  exact h

theorem buildSectionAux_of_fail (lines : List Str) :
    ∀ acc, (∃ l ∈ lines, parseline l = none) → buildSectionAux acc lines = none := by
  induction lines with
  | nil => rintro acc ⟨l, hl, -⟩; cases hl
  | cons x xs ih =>
    rintro acc ⟨l, hl, hfail⟩
    rw [buildSectionAux]
    rcases List.mem_cons.mp hl with rfl | hmem
    · rw [hfail]
    · cases hpx : parseline x with
      | none => rfl
      | some v => exact ih _ ⟨l, hmem, hfail⟩

theorem classifyLines_before_marker (pre : List Str) :
    ∀ (l : Str) (rest : List Str) (st : GHState),
      st.current = none →
      (∀ p ∈ pre, p = [] ∨ startswith "#".data (lstrip p) = true) →
      l ≠ [] → startswith "#".data (lstrip l) = false →
      startswith "~".data (lstrip l) = false →
      classifyLines (pre ++ l :: rest) st = .error () := by
  induction pre with
  | nil =>
    intro l rest st hcur _ hne hnc hnm
    rw [List.nil_append, classifyLines]
    rw [if_neg hne, hnc, if_neg (by simp), hnm, if_neg (by simp), hcur]
  | cons p ps ih =>
    intro l rest st hcur hpre hne hnc hnm
    have hp := hpre p (List.mem_cons_self _ _)
    rw [List.cons_append, classifyLines]
    rcases hp with rfl | hcmt
    · rw [if_pos rfl]
      exact ih l rest st hcur (fun q hq => hpre q (List.mem_cons_of_mem _ hq)) hne hnc hnm
    · by_cases hpe : p = []
      · rw [if_pos hpe]
        exact ih l rest st hcur (fun q hq => hpre q (List.mem_cons_of_mem _ hq)) hne hnc hnm
      · rw [if_neg hpe, hcmt, if_pos rfl]
        exact ih l rest _ hcur (fun q hq => hpre q (List.mem_cons_of_mem _ hq)) hne hnc hnm

theorem getheaderlinesAux_no_marker :
    ∀ (fuel : Nat) (line : Str) (remaining acc : List Str),
      startswith "~A".data (lstrip line) = false →
      (∀ l ∈ remaining, startswith "~A".data (lstrip l) = false) →
      getheaderlinesAux fuel line remaining acc = none := by
  intro fuel
  induction fuel with
  | zero => intro line remaining acc _ _; rfl
  | succ n ih =>
    intro line remaining acc hline hrem
    rw [getheaderlinesAux, hline, if_neg (by simp)]
    cases remaining with
    | nil => exact ih [] [] _ (by decide) (by intro l hl; cases hl)
    | cons r rs =>
      exact ih r rs _ (hrem r (List.mem_cons_self _ _))
        (fun l hl => hrem l (List.mem_cons_of_mem _ hl))

/-! ## Claims -/

/-- Claim C1: the spec's layout round-trip law
(`_composeline(P, V)` reproduces any line that `_parseline` accepted)
fails on the code — and on the code's own docstring example.  Parsing
`"  DEPTH.M       : MEASURED DEPTH  "` (seven spaces before the colon)
yields layout `[2,0,6,0,1,2]`, not the documented `[2,0,7,0,1,2]`, because
`rest.split(" ", 1)` consumes the space separating UNIT from DATA, and
composing the parse result emits a line with only six spaces there: one
character shorter than the original.  No accepted line round-trips. -/
theorem C1_roundtrip_fails_at_docstring_line :
    parseline "  DEPTH.M       : MEASURED DEPTH  ".data =
      some (ParsedLine.mk "DEPTH".data "M".data [] "MEASURED DEPTH".data,
        [2, 0, 6, 0, 1, 2]) ∧
    composeline (ParsedLine.mk "DEPTH".data "M".data [] "MEASURED DEPTH".data)
        [2, 0, 6, 0, 1, 2] = "  DEPTH.M      : MEASURED DEPTH  ".data ∧
    ("  DEPTH.M      : MEASURED DEPTH  ".data : Str) ≠
      "  DEPTH.M       : MEASURED DEPTH  ".data := by
  refine ⟨by decide, by decide, by decide⟩

/-- Claim C5, counterexample: the line `"A B:C"` contains a colon and its
pre-colon remainder `"A B"` contains a space, so by the claim's
"if and only if" `_splitline` should succeed on it; it fails, because the
remainder contains no period. -/
theorem C5_counterexample :
    splitline "A B:C".data = none ∧
    (rsplitOnce ':' "A B:C".data).isSome = true ∧
    (splitOnce ' ' "A B".data).isSome = true := by
  refine ⟨by decide, by decide, by decide⟩

/-- Claim C5, amended: `_splitline` performs the three ordered single
splits and fails exactly when the line has no colon, or the pre-colon
remainder has no period, or the part of that remainder after its first
period has no space. -/
theorem C5_amended (line : Str) :
    splitline line = none ↔
      rsplitOnce ':' line = none ∨
      ∃ rest desc, rsplitOnce ':' line = some (rest, desc) ∧
        (splitOnce '.' rest = none ∨
         ∃ mnem rest2, splitOnce '.' rest = some (mnem, rest2) ∧
           splitOnce ' ' rest2 = none) := by
  rw [splitline]
  cases h1 : rsplitOnce ':' line with
  | none => simp
  | some p =>
    obtain ⟨rest, desc⟩ := p
    cases h2 : splitOnce '.' rest with
    | none => simp [h2]
    | some q =>
      obtain ⟨mnem, rest2⟩ := q
      cases h3 : splitOnce ' ' rest2 with
      | none =>
        exact iff_of_true (by simp [h2, h3])
          (Or.inr ⟨rest, desc, rfl, Or.inr ⟨mnem, rest2, h2, h3⟩⟩)
      | some r => simp [h2, h3]

/-- Claim C2, counterexample: a document whose declared step is positive
(so no reversal happens) but whose on-disk index curve is not monotone
decodes to a matrix whose row 0 is not non-decreasing; `read` only ever
reverses the sample order, it never sorts. -/
theorem C2_counterexample :
    readData [mkRat 1 1, mkRat 3 1, mkRat 2 1] 1 (mkRat (-999) 1) (mkRat 1 1) =
      some [[some (mkRat 1 1), some (mkRat 3 1), some (mkRat 2 1)]] ∧
    ¬ List.Sorted (· ≤ ·)
      (numericEntries [some (mkRat 1 1), some (mkRat 3 1), some (mkRat 2 1)]) := by
  refine ⟨by decide, by decide⟩

/-- Claim C2, amended: the decode pipeline reverses the sample order
exactly when the effective step — the declared one, or the inferred
`data[0][1] - data[0][0]` when the declared step equals NULL or zero — is
negative, and row 0 of the result is non-decreasing provided the on-disk
row 0 was ordered consistently with that sign (non-increasing when
reversing, non-decreasing otherwise). -/
theorem C2_amended (flat : List ℚ) (nc : Nat) (nullv stepv : ℚ)
    (b data : List (List (Option ℚ))) (neg : Bool)
    (hb : reshapeflatdata (replacenullvalues flat nullv) nc = some b)
    (hn : effStepNeg b nullv stepv = some neg)
    (hd : readData flat nc nullv stepv = some data)
    (hmono : if neg then List.Sorted (· ≥ ·) (numericEntries (b.headD []))
             else List.Sorted (· ≤ ·) (numericEntries (b.headD []))) :
    data = (if neg then reorderdata b else b) ∧
    List.Sorted (· ≤ ·) (numericEntries (data.headD [])) := by
  simp only [readData, hb, hn] at hd
  obtain rfl : (if neg then reorderdata b else b) = data := by
    cases neg <;> simpa using hd
  refine ⟨rfl, ?_⟩
  cases neg with
  | false => simpa using hmono
  | true =>
    simp only [eq_self_iff_true, if_true, reorderdata] at hmono ⊢
    rw [headD_map_reverse, numericEntries_reverse]
    exact sorted_ge_reverse _ hmono

/-- Witness for C2's amended theorem at a descending two-curve document
(declared step `-1`): the decoded matrix is the reversal and its row 0 is
non-decreasing. -/
theorem C2_amended_witness :
    (some [[some (mkRat 1400 1), some (mkRat 1499 1), some (mkRat 1500 1)],
           [some (mkRat 3 1), some (mkRat 2 1), some (mkRat 1 1)]] :
        Option (List (List (Option ℚ)))) =
      some (if true then
        reorderdata [[some (mkRat 1500 1), some (mkRat 1499 1), some (mkRat 1400 1)],
                     [some (mkRat 1 1), some (mkRat 2 1), some (mkRat 3 1)]]
        else [[some (mkRat 1500 1), some (mkRat 1499 1), some (mkRat 1400 1)],
              [some (mkRat 1 1), some (mkRat 2 1), some (mkRat 3 1)]]) ∧
    List.Sorted (· ≤ ·) (numericEntries
      [some (mkRat 1400 1), some (mkRat 1499 1), some (mkRat 1500 1)]) := by
  have h := C2_amended
    [mkRat 1500 1, mkRat 1 1, mkRat 1499 1, mkRat 2 1, mkRat 1400 1, mkRat 3 1] 2
    (mkRat (-999) 1) (mkRat (-1) 1)
    [[some (mkRat 1500 1), some (mkRat 1499 1), some (mkRat 1400 1)],
     [some (mkRat 1 1), some (mkRat 2 1), some (mkRat 3 1)]]
    [[some (mkRat 1400 1), some (mkRat 1499 1), some (mkRat 1500 1)],
     [some (mkRat 3 1), some (mkRat 2 1), some (mkRat 1 1)]] true
    (by decide) (by decide) (by decide) (by decide)
  exact ⟨congrArg some h.1, h.2⟩

/-- Claim C4: if any buffered line of a section fails to parse, the whole
section is stored as the raw newline-join of its buffered lines, and the
per-section processing is a map over the sections, so every other section
is still processed and the document load continues. -/
theorem C4_failed_section_degrades_to_raw (secs : List (Str × List Str))
    (lines : List Str) (hfail : ∃ l ∈ lines, parseline l = none) :
    processSection lines = .str (joinNL lines) ∧
    (processSections secs).map Prod.fst = secs.map Prod.fst := by
  constructor
  · rw [processSection, buildSection, buildSectionAux_of_fail lines [] hfail]
  · simp [processSections]

/-- Witness for C4 at a two-line section whose second line lacks a colon. -/
theorem C4_witness :
    processSection ["A. :".data, "garbage".data] =
      .str (joinNL ["A. :".data, "garbage".data]) ∧
    (processSections [("W".data, ["garbage".data])]).map Prod.fst =
      [("W".data, ["garbage".data])].map Prod.fst :=
  C4_failed_section_degrades_to_raw [("W".data, ["garbage".data])]
    ["A. :".data, "garbage".data] ⟨"garbage".data, by decide, by decide⟩

/-- Claim C9 (implicit): when the first line that is neither empty, nor a
comment, nor a section marker precedes every section marker, the first
loop of `_getheader` appends to `currentsection = None` and raises an
uncontained `AttributeError`, aborting the whole load instead of
degrading a section. -/
theorem C9_line_before_any_marker_aborts (pre : List Str) (l : Str)
    (rest : List Str)
    (hpre : ∀ p ∈ pre, p = [] ∨ startswith "#".data (lstrip p) = true)
    (hne : l ≠ []) (hnc : startswith "#".data (lstrip l) = false)
    (hnm : startswith "~".data (lstrip l) = false) :
    classifyLines (pre ++ l :: rest) initGHState = .error () :=
  classifyLines_before_marker pre l rest initGHState rfl hpre hne hnc hnm

/-- Witness for C9: a comment and a blank line followed by an ordinary
line with no preceding section marker. -/
theorem C9_witness :
    classifyLines (["# note\n".data, []] ++ "WELL. X :\n".data :: []) initGHState =
      .error () :=
  C9_line_before_any_marker_aborts ["# note\n".data, []] "WELL. X :\n".data []
    (by decide) (by decide) (by decide) (by decide)

/-- Claim C3: the claim says header lexing on marker-less input terminates
with a `MalformedDocument` error; the code instead never terminates —
`readline()` returns `''` forever at end-of-file, `''` never has the
`'~A'` prefix, and no such error type exists in the code — so for every
amount of fuel the loop is still running. -/
theorem C3_no_marker_never_terminates (fuel : Nat) (file : List Str)
    (hnm : ∀ l ∈ file, startswith "~A".data (lstrip l) = false) :
    getheaderlines fuel file = none := by
  rw [getheaderlines]
  cases file with
  | nil => exact getheaderlinesAux_no_marker fuel [] [] [] (by decide) (by intro l hl; cases hl)
  | cons x xs =>
    exact getheaderlinesAux_no_marker fuel x xs [] (hnm x (List.mem_cons_self _ _))
      (fun l hl => hnm l (List.mem_cons_of_mem _ hl))

/-- Witness for C3 at a concrete marker-less file. -/
theorem C3_witness : getheaderlines 5 ["foo\n".data, "bar\n".data] = none :=
  C3_no_marker_never_terminates 5 ["foo\n".data, "bar\n".data] (by decide)

theorem dv_digitChar : ∀ n, n < 10 → dv (Nat.digitChar n) = n := by decide

theorem digitsVal_append_singleton (xs : Str) (c : Char) :
    digitsVal (xs ++ [c]) = digitsVal xs * 10 + dv c := by
  simp [digitsVal, List.foldl_append]

theorem digitsVal_reverse (l : Str) : digitsVal l.reverse = valLE l := by
  induction l with
  | nil => rfl
  | cons c cs ih =>
    rw [List.reverse_cons, digitsVal_append_singleton, ih, valLE]
    omega

theorem valLE_natStrRevAux : ∀ (fuel n : Nat), n < fuel →
    valLE (natStrRevAux fuel n) = n := by
  intro fuel
  induction fuel with
  | zero => omega
  | succ f ih =>
    intro n hn
    rw [natStrRevAux]
    by_cases h10 : n < 10
    · rw [if_pos h10, valLE, valLE, dv_digitChar n h10]
      omega
    · rw [if_neg h10, valLE, dv_digitChar (n % 10) (Nat.mod_lt _ (by omega)),
        ih (n / 10) (by omega)]
      omega

theorem digitsVal_natStr (n : Nat) : digitsVal (natStr n) = n := by
  rw [natStr, digitsVal_reverse, valLE_natStrRevAux (n + 1) n (Nat.lt_succ_self n)]

theorem digitsVal_replicate_zero (k : Nat) :
    ∀ a, List.foldl (fun a c => a * 10 + dv c) a (List.replicate k '0') = a * 10 ^ k := by
  induction k with
  | zero => intro a; simp [List.replicate]
  | succ m ih =>
    intro a
    rw [List.replicate_succ, List.foldl_cons, ih]
    have : dv '0' = 0 := by decide
    rw [this]
    ring

theorem digitsVal_pad4 (n : Nat) : digitsVal (pad4 n) = n := by
  rw [pad4, digitsVal, List.foldl_append, digitsVal_replicate_zero]
  simpa [digitsVal] using digitsVal_natStr n

theorem pad4_injective {m n : Nat} (h : pad4 m = pad4 n) : m = n := by
  have := congrArg digitsVal h
  rwa [digitsVal_pad4, digitsVal_pad4] at this

theorem candName_injective (M : Str) {i j : Nat}
    (h : candName M i = candName M j) : i = j := by
  match i, j with
  | 0, 0 => rfl
  | 0, j + 1 =>
    exfalso
    have := congrArg List.length h
    simp [candName] at this
  | i + 1, 0 =>
    exfalso
    have := congrArg List.length h
    simp [candName] at this
  | i + 1, j + 1 =>
    rw [candName, candName] at h
    have h2 := List.append_cancel_left h
    have h3 : pad4 (i + 1) = pad4 (j + 1) := by
      simpa using h2
    exact congrArg _ (Nat.succ_injective (pad4_injective h3))

theorem mem_keysList {M : Str} {c k : Nat} :
    candName M c ∈ keysList M k ↔ c < k := by
  constructor
  · intro h
    obtain ⟨j, hj, hcand⟩ := List.mem_map.mp h
    obtain rfl := candName_injective M hcand
    exact List.mem_range.mp hj
  · intro h
    exact List.mem_map.mpr ⟨c, List.mem_range.mpr h, rfl⟩

theorem keysList_length (M : Str) (k : Nat) : (keysList M k).length = k := by
  simp [keysList]

theorem keysList_succ (M : Str) (k : Nat) :
    keysList M (k + 1) = keysList M k ++ [candName M k] := by
  simp [keysList, List.range_succ]

theorem renameAux_keysList (M : Str) (k : Nat) :
    ∀ (d c : Nat), c + d = k → renameAux (keysList M k) M (d + 1) c = candName M k := by
  intro d
  induction d with
  | zero =>
    intro c hc
    obtain rfl : c = k := by omega
    rw [renameAux, if_neg]
    intro hmem
    have := mem_keysList.mp hmem
    omega
  | succ e ih =>
    intro c hc
    rw [renameAux, if_pos (mem_keysList.mpr (by omega))]
    exact ih (c + 1) (by omega)

theorem rename_keysList (M : Str) (k : Nat) :
    rename (keysList M k) M = candName M k := by
  rw [rename, keysList_length]
  exact renameAux_keysList M k k 0 (by omega)

theorem buildSectionAux_allM (M : Str) :
    ∀ (lines : List Str) (ps : List ParsedLine)
      (acc : List (Str × ParsedLine)) (k : Nat),
      List.Forall₂ (fun l p => ∃ lay, parseline l = some (p, lay)) lines ps →
      (∀ p ∈ ps, p.MNEM = M) →
      acc.map Prod.fst = keysList M k →
      buildSectionAux acc lines =
        some (acc ++ ((List.range ps.length).map (fun i => candName M (k + i))).zip ps) := by
  intro lines
  induction lines with
  | nil =>
    intro ps acc k hf _ _
    cases hf
    simp [buildSectionAux]
  | cons l ls ih =>
    intro ps acc k hf hM hacc
    cases hf with
    | cons hlp htail =>
      rename_i p ps'
      obtain ⟨lay, hpar⟩ := hlp
      rw [buildSectionAux, hpar]
      show buildSectionAux (acc ++ [(rename (acc.map Prod.fst) p.MNEM, p)]) ls = _
      have hMp : p.MNEM = M := hM p (List.mem_cons_self _ _)
      have hkey : rename (acc.map Prod.fst) p.MNEM = candName M k := by
        rw [hacc, hMp, rename_keysList]
      rw [hkey]
      have hacc' : (acc ++ [(candName M k, p)]).map Prod.fst = keysList M (k + 1) := by
        rw [List.map_append, hacc, keysList_succ]
        rfl
      rw [ih ps' _ (k + 1) htail (fun q hq => hM q (List.mem_cons_of_mem _ hq)) hacc']
      congr 1
      rw [List.append_assoc]
      congr 1
      rw [List.length_cons, List.range_succ_eq_map]
      simp only [List.map_cons, List.map_map, List.zip_cons_cons, Nat.add_zero,
        List.cons_append, List.nil_append]
      congr 1
      congr 1
      apply List.map_congr_left
      intro i _
      simp only [Function.comp_apply]
      have hki : k + 1 + i = k + (i + 1) := by omega
      rw [hki]

/-- Claim C7, counterexample: in a section whose parsed mnemonics are
`M`, `M_0001`, `M` in file order, the two lines sharing the mnemonic `M`
receive the keys `M` and `M_0002` — not `M`, `M_0001` as the claim
requires — because the literal mnemonic `M_0001` already occupies the
first suffixed candidate. -/
theorem C7_counterexample :
    buildSection ["M. :".data, "M_0001. :".data, "M. :".data] =
      some [("M".data, ParsedLine.mk "M".data [] [] []),
            ("M_0001".data, ParsedLine.mk "M_0001".data [] [] []),
            ("M_0002".data, ParsedLine.mk "M".data [] [] [])] ∧
    ("M_0002".data : Str) ≠ "M_0001".data := by
  refine ⟨by decide, by decide⟩

/-- Claim C7, amended: when every line of the section shares the same
mnemonic `M` (so no other line can occupy or produce one of the suffixed
candidates), a section of `n+1` such lines is keyed `M`, `M_0001`, …,
`M_000n` in order of appearance, and every stored line keeps its original
`MNEM` field `M`. -/
theorem C7_amended (M : Str) (lines : List Str) (ps : List ParsedLine)
    (hpar : List.Forall₂ (fun l p => ∃ lay, parseline l = some (p, lay)) lines ps)
    (hM : ∀ p ∈ ps, p.MNEM = M) :
    buildSection lines = some (((List.range ps.length).map (candName M)).zip ps) ∧
    ∀ kv ∈ ((List.range ps.length).map (candName M)).zip ps, kv.2.MNEM = M := by
  constructor
  · have h := buildSectionAux_allM M lines ps [] 0 hpar hM rfl
    rw [buildSection, h]
    simp only [List.nil_append, Option.some.injEq]
    congr 1
    apply List.map_congr_left
    intro i _
    rw [Nat.zero_add]
  · intro kv hkv
    exact hM kv.2 (List.of_mem_zip hkv).2

/-- Witness for C7's amended theorem: two lines with mnemonic `DEPT` are
keyed `DEPT` and `DEPT_0001` and both keep `MNEM = DEPT`. -/
theorem C7_witness :
    buildSection ["DEPT.M :".data, "DEPT.M :".data] =
      some [("DEPT".data, ParsedLine.mk "DEPT".data "M".data [] []),
            ("DEPT_0001".data, ParsedLine.mk "DEPT".data "M".data [] [])] := by
  have h := C7_amended "DEPT".data ["DEPT.M :".data, "DEPT.M :".data]
    [ParsedLine.mk "DEPT".data "M".data [] [], ParsedLine.mk "DEPT".data "M".data [] []]
    (List.Forall₂.cons (Exists.intro [0, 0, 0, 0, 0, 0] (by decide))
      (List.Forall₂.cons (Exists.intro [0, 0, 0, 0, 0, 0] (by decide)) List.Forall₂.nil))
    (by decide)
  exact h.1.trans (by decide)

/-- Claim C6, counterexample: with the header literal `"-999.2500"`, an
element equal to the declared NULL decodes to missing, but re-encoding the
missing element emits the token `"-999.25"` — the `%.8g` rendering of the
parsed float — not the exact literal declared in the header. -/
theorem C6_counterexample :
    parseDecimal "-999.2500".data = some (-(mkRat 3997 4)) ∧
    replacenullvalues [-(mkRat 3997 4)] (-(mkRat 3997 4)) = [none] ∧
    encodeToken none (-(mkRat 3997 4)) = "-999.25".data ∧
    ("-999.25".data : Str) ≠ "-999.2500".data := by
  refine ⟨by decide, by decide, by decide, by decide⟩

/-- Claim C6, amended: decoding maps exactly the elements equal to the
declared NULL value to missing, and encoding maps every missing element
back to the NULL value, emitting its `%.8g` rendering as the token — which
equals the header literal exactly when that literal is already in
canonical `%.8g` form (as the conventional `-999.25` is). -/
theorem C6_amended (lit : Str) (q : ℚ) (data : List ℚ)
    (_hp : parseDecimal lit = some q) (hfmt : pyFormatG 8 q = lit) :
    (∀ i x, data.get? i = some x →
      (replacenullvalues data q).get? i = some (if x = q then none else some x)) ∧
    encodeToken none q = lit := by
  constructor
  · intro i x hx
    rw [List.get?_eq_getElem?] at hx
    simp [replacenullvalues, List.getElem?_map, hx]
  · rw [encodeToken]
    simpa using hfmt

/-- Witness for C6's amended theorem at the canonical literal `-999.25`. -/
theorem C6_witness :
    (replacenullvalues [-(mkRat 3997 4), mkRat 5 1] (-(mkRat 3997 4))).get? 0 =
      some none ∧
    encodeToken none (-(mkRat 3997 4)) = "-999.25".data := by
  have h := C6_amended "-999.25".data (-(mkRat 3997 4))
    [-(mkRat 3997 4), mkRat 5 1] (by decide) (by decide)
  refine ⟨?_, h.2⟩
  have h0 := h.1 0 (-(mkRat 3997 4)) (by decide)
  simpa using h0

/-- Claim C8, counterexample: with the DATA style `right`-aligned (not
left) and the DESC style aligned, the claim requires the first line's DESC
offset to stack `max(MNEM+UNIT+DATA) - (MNEM+UNIT+DATA) = 2 - 1 = 1`
over the preceding fields; the computed layout's DESC-left slot is `0`,
because the code zeroes the offset whenever the DATA style has any truthy
alignment, not only a left one. -/
theorem C8_counterexample :
    getprettyheaderlayout
      [("P".data, SectionVal.structured
        [("A".data, ParsedLine.mk "A".data [] [] "D".data),
         ("BB".data, ParsedLine.mk "BB".data [] [] "E".data)])]
      (some (Style.mk none 0 0)) (some (Style.mk (some "right".data) 0 0))
      (some (Style.mk (some "right".data) 0 0)) (some false) =
      [("P".data, [("A".data, [0, 0, 1, 0, 0, 0]),
                   ("BB".data, [0, 0, 0, 0, 0, 0])])] ∧
    natMax (List.zipWith (· + ·) (List.zipWith (· + ·) [1, 2] [0, 0]) [0, 0]) -
      (1 + 0 + 0) = 1 ∧
    (1 : Nat) ≠ 0 := by
  refine ⟨by decide, by decide, by decide⟩

/-- Claim C8, amended: a line's DESC positional offset (`descleft`,
lines 762-771, later added to the DESC slack's left share in slot 4 of the
line layout) is zero whenever the DESC style has no truthy alignment or
the DATA style has one — any alignment, including left — and stacks the
column offset over the MNEM+UNIT+DATA widths exactly when DESC is aligned,
DATA is unaligned and MNEM is unaligned. -/
theorem C8_amended (am ad ade : Bool) (msz sz : SizeArrs) (i : Nat) (v : Nat)
    (hv : (descleftOf am ad ade msz sz).get? i = some v) :
    ((ade = false ∨ ad = true) → v = 0) ∧
    ((ade = true ∧ ad = false ∧ am = false) →
      ∀ s, (List.zipWith (· + ·) (List.zipWith (· + ·) sz.m sz.u) sz.d).get? i = some s →
        v = natMax (List.zipWith (· + ·)
          (List.zipWith (· + ·) msz.m msz.u) msz.d) - s) := by
  constructor
  · intro h
    have hcond : (!ade || ad) = true := by
      rcases h with rfl | rfl <;> simp
    rw [descleftOf, if_pos hcond, List.get?_eq_getElem?, List.getElem?_map] at hv
    cases hm : sz.m[i]? with
    | none => rw [hm] at hv; cases hv
    | some w =>
      rw [hm] at hv
      simpa using hv.symm
  · rintro ⟨rfl, rfl, rfl⟩ s hs
    rw [descleftOf, if_neg (by decide), if_neg (by decide),
      List.get?_eq_getElem?, List.getElem?_map] at hv
    rw [List.get?_eq_getElem?] at hs
    rw [hs] at hv
    simpa using hv.symm

/-- Witness for C8: DESC aligned, DATA and MNEM unaligned, so the offset
of the first line stacks `2 - 1 = 1` over MNEM+UNIT+DATA. -/
theorem C8_witness :
    (1 : Nat) = natMax (List.zipWith (· + ·)
      (List.zipWith (· + ·) [1, 2] [0, 0]) [0, 0]) - 1 := by
  have h := C8_amended false false true
    (SizeArrs.mk [1, 2] [0, 0] [0, 0] [1, 1])
    (SizeArrs.mk [1, 2] [0, 0] [0, 0] [1, 1]) 0 1 (by decide)
  exact h.2 ⟨rfl, rfl, rfl⟩ 1 (by decide)

theorem odLookup_odInsert_self {κ α : Type} [DecidableEq κ]
    (d : List (κ × α)) (k : κ) (v : α) : odLookup (odInsert d k v) k = some v := by
  induction d with
  | nil => simp [odInsert, odLookup]
  | cons e rest ih =>
    rw [odInsert]
    by_cases h : e.1 = k
    · rw [if_pos h, odLookup, if_pos rfl]
    · rw [if_neg h, odLookup, if_neg h, ih]

theorem odLookup_odInsert_of_ne {κ α : Type} [DecidableEq κ]
    (d : List (κ × α)) (k k' : κ) (v : α) (h : k ≠ k') :
    odLookup (odInsert d k v) k' = odLookup d k' := by
  induction d with
  | nil => simp [odInsert, odLookup, h]
  | cons e rest ih =>
    rw [odInsert]
    by_cases he : e.1 = k
    · rw [if_pos he, odLookup, if_neg h, odLookup, if_neg (he ▸ h)]
    · rw [if_neg he, odLookup, odLookup, ih]

theorem odLookup_odUpdate_of_none {κ α : Type} [DecidableEq κ]
    (d : List (κ × α)) (k a : κ) (f : α → α) (h : odLookup d a = none) :
    odLookup (odUpdate d k f) a = none := by
  induction d with
  | nil => rfl
  | cons e rest ih =>
    rw [odLookup] at h
    by_cases hea : e.1 = a
    · rw [if_pos hea] at h; cases h
    · rw [if_neg hea] at h
      rw [odUpdate]
      by_cases hek : e.1 = k
      · rw [if_pos hek, odLookup, if_neg (hek ▸ hea), h]
      · rw [if_neg hek, odLookup, if_neg hea, ih h]

theorem odInsert_eq_append {κ α : Type} [DecidableEq κ]
    (d : List (κ × α)) (k : κ) (v : α) (h : odLookup d k = none) :
    odInsert d k v = d ++ [(k, v)] := by
  induction d with
  | nil => rfl
  | cons e rest ih =>
    rw [odLookup] at h
    by_cases hek : e.1 = k
    · rw [if_pos hek] at h; cases h
    · rw [if_neg hek] at h
      rw [odInsert, if_neg hek, List.cons_append, ih h]

theorem startswith_cons {c : Char} {s : Str} (h : startswith [c] s = true) :
    ∃ t, s = c :: t := by
  cases s with
  | nil => cases h
  | cons d t =>
    rw [startswith] at h
    simp only [Bool.and_eq_true, decide_eq_true_eq] at h
    exact ⟨t, by rw [h.1]⟩

theorem classifyLines_append (xs : List Str) :
    ∀ (ys : List Str) (st : GHState),
      classifyLines (xs ++ ys) st =
        match classifyLines xs st with
        | .ok st1 => classifyLines ys st1
        | .error e => .error e := by
  induction xs with
  | nil => intro ys st; rfl
  | cons x xs ih =>
    intro ys st
    rw [List.cons_append, classifyLines]
    conv_rhs => rw [classifyLines]
    by_cases h1 : x = []
    · rw [if_pos h1, if_pos h1, ih]
    · rw [if_neg h1, if_neg h1]
      by_cases h2 : startswith "#".data (lstrip x) = true
      · rw [if_pos h2, if_pos h2, ih]
      · rw [if_neg h2, if_neg h2]
        by_cases h3 : startswith "~".data (lstrip x) = true
        · rw [if_pos h3, if_pos h3]
          cases hk : sectionKey (stripNL x) with
          | none => rfl
          | some key => exact ih ys _
        · rw [if_neg h3, if_neg h3]
          cases hc : st.current with
          | none => rfl
          | some key => exact ih ys _

theorem classifyLines_lookupA_none (ls : List Str) :
    ∀ (st st' : GHState),
      (∀ l ∈ ls, startswith "~".data (lstrip l) = true →
        sectionKey (stripNL l) ≠ some "A".data) →
      classifyLines ls st = .ok st' →
      odLookup st.header "A".data = none →
      odLookup st'.header "A".data = none := by
  induction ls with
  | nil =>
    intro st st' _ hok hA
    rw [classifyLines] at hok
    simp only [Except.ok.injEq] at hok
    rwa [← hok]
  | cons l ls ih =>
    intro st st' hyp hok hA
    rw [classifyLines] at hok
    by_cases h1 : l = []
    · rw [if_pos h1] at hok
      exact ih st st' (fun q hq => hyp q (List.mem_cons_of_mem _ hq)) hok hA
    · rw [if_neg h1] at hok
      by_cases h2 : startswith "#".data (lstrip l) = true
      · rw [if_pos h2] at hok
        exact ih _ st' (fun q hq => hyp q (List.mem_cons_of_mem _ hq)) hok hA
      · rw [if_neg h2] at hok
        by_cases h3 : startswith "~".data (lstrip l) = true
        · rw [if_pos h3] at hok
          cases hk : sectionKey (stripNL l) with
          | none => rw [hk] at hok; cases hok
          | some key =>
            rw [hk] at hok
            have hkA : key ≠ "A".data := by
              intro he
              exact hyp l (List.mem_cons_self _ _) h3 (he ▸ hk)
            refine ih _ st' (fun q hq => hyp q (List.mem_cons_of_mem _ hq)) hok ?_
            rw [odLookup_odInsert_of_ne _ _ _ _ hkA]
            exact hA
        · rw [if_neg h3] at hok
          cases hc : st.current with
          | none => rw [hc] at hok; cases hok
          | some key =>
            rw [hc] at hok
            refine ih _ st' (fun q hq => hyp q (List.mem_cons_of_mem _ hq)) hok ?_
            exact odLookup_odUpdate_of_none _ _ _ _ hA

theorem classifyLines_marker (mkline : Str) (st : GHState) (k : Str)
    (hne : mkline ≠ []) (hnc : startswith "#".data (lstrip mkline) = false)
    (hm : startswith "~".data (lstrip mkline) = true)
    (hk : sectionKey (stripNL mkline) = some k) :
    classifyLines [mkline] st = .ok { st with
      header := odInsert st.header k [],
      names := odInsert st.names k (stripNL mkline),
      current := some k,
      linecount := st.linecount + 1 } := by
  rw [classifyLines, if_neg hne, hnc, if_neg (by simp), if_pos hm, hk]
  rfl

theorem joinNL_concat (xs : List Str) (t : Str) :
    ∃ pre, joinNL (xs ++ [t]) = pre ++ t := by
  induction xs with
  | nil => exact ⟨[], rfl⟩
  | cons x xs ih =>
    obtain ⟨pre, hpre⟩ := ih
    refine ⟨x ++ '\n' :: pre, ?_⟩
    have hstep : joinNL (x :: xs ++ [t]) = x ++ '\n' :: joinNL (xs ++ [t]) := by
      cases xs <;> rfl
    rw [hstep, hpre]
    simp

theorem headertostring_ends_with_marker (header : List (Str × SectionVal))
    (names : List (Str × Str)) (layout : List (Str × List (Str × List Nat)))
    (comments : List (Nat × Str)) (t s : Str)
    (hA : odLookup names "A".data = some t)
    (hs : headertostring header names layout comments = some s) :
    ∃ pre, s = pre ++ t := by
  have hne : names.isEmpty = false := by
    cases names with
    | nil => cases hA
    | cons a l => rfl
  rw [headertostring] at hs
  simp only [hne, Bool.false_eq_true, if_false] at hs
  cases hb : headerBody header names (!layout.isEmpty) layout comments with
  | none => rw [hb] at hs; cases hs
  | some body =>
    rw [hb, hA] at hs
    simp only [Option.some.injEq] at hs
    obtain ⟨pre, hpre⟩ := joinNL_concat (replayComments comments body) t
    exact ⟨pre, by rw [← hs, hpre]⟩

theorem odLookup_processSections (d : List (Str × List Str)) (k : Str) :
    odLookup (processSections d) k = (odLookup d k).map processSection := by
  induction d with
  | nil => rfl
  | cons e rest ih =>
    rw [processSections, List.map_cons, odLookup, odLookup]
    by_cases h : e.1 = k
    · rw [if_pos h, if_pos h]
      rfl
    · rw [if_neg h, if_neg h]
      exact ih

/-- Claim C10, counterexample: a document opening with a lowercase
`~a`-titled section (not the data marker, since the marker test is the
case-sensitive prefix `~A`, but whose key upper-cases to `A`) leaves the
key `A` at its first insertion position.  The document is one that `read`
accepts end-to-end — its Well section declares `NULL` and `STEP` with
float-parseable values (second and third conjuncts), its Curve section
has one curve, and its two data samples decode successfully with that
null and step (fourth conjunct) — yet the header's last key is `C`, not
`A`.  The first conjunct also shows `headersectionnames["A"]` holding the
final marker text `~A` even though the earlier `~a JUNK` assignment
shared the key. -/
theorem C10_counterexample :
    (getheaderlines 20 ["~a JUNK\n".data, "~Well\n".data,
        " NULL. -999.25 : null\n".data, " STEP.M 0.5 : step\n".data,
        "~Curve\n".data, " DEPT.M : depth\n".data, "~A\n".data,
        "1500.0\n".data, "1500.5\n".data]).map (fun hl =>
      (classifyLines hl initGHState).toOption.map (fun st =>
        (processSections st.header, odLookup st.names "A".data))) =
      some (some
        ([("A".data, SectionVal.str []),
          ("W".data, SectionVal.structured
            [("NULL".data,
              ParsedLine.mk "NULL".data [] "-999.25".data "null".data),
             ("STEP".data,
              ParsedLine.mk "STEP".data "M".data "0.5".data "step".data)]),
          ("C".data, SectionVal.structured
            [("DEPT".data,
              ParsedLine.mk "DEPT".data "M".data [] "depth".data)])],
         some "~A".data)) ∧
    parseDecimal "-999.25".data = some (-(mkRat 3997 4)) ∧
    parseDecimal "0.5".data = some (mkRat 1 2) ∧
    readData [mkRat 1500 1, mkRat 3001 2] 1 (-(mkRat 3997 4)) (mkRat 1 2) =
      some [[some (mkRat 1500 1), some (mkRat 3001 2)]] ∧
    (([("A".data, SectionVal.str []),
       ("W".data, SectionVal.structured
         [("NULL".data,
           ParsedLine.mk "NULL".data [] "-999.25".data "null".data),
          ("STEP".data,
           ParsedLine.mk "STEP".data "M".data "0.5".data "step".data)]),
       ("C".data, SectionVal.structured
         [("DEPT".data,
           ParsedLine.mk "DEPT".data "M".data [] "depth".data)])].map
        Prod.fst).getLast? = some "C".data) ∧
    ("C".data : Str) ≠ "A".data := by
  refine ⟨by decide, by decide, by decide, by decide, by decide, by decide⟩

/-- Claim C10, amended: after classifying any header whose final line is
the data marker (an `A`-keyed `~`-line), unconditionally —
`headersectionnames["A"]` holds that marker line's text (the last
`A`-keyed assignment wins even when an earlier `~a...` section shares the
key), the processed header stores the empty-string value at key `A`, and
every string `_headertostring` successfully produces ends with
`sectionnames["A"]`, so a terminating marker line is emitted on every
write of a read-back document; and, provided no earlier header line opens
a section whose key is also `A`, the key `A` is moreover the header's
last key. -/
theorem C10_amended (hl' : List Str) (mkline : Str) (st : GHState)
    (hmk : startswith "~".data (lstrip mkline) = true)
    (hkey : sectionKey (stripNL mkline) = some "A".data)
    (hok : classifyLines (hl' ++ [mkline]) initGHState = .ok st) :
    odLookup st.names "A".data = some (stripNL mkline) ∧
    odLookup (processSections st.header) "A".data =
      some (SectionVal.str []) ∧
    (∀ layout comments s,
      headertostring (processSections st.header) st.names layout comments =
        some s →
      ∃ pre, s = pre ++ stripNL mkline) ∧
    ((∀ l ∈ hl', startswith "~".data (lstrip l) = true →
        sectionKey (stripNL l) ≠ some "A".data) →
      (processSections st.header).getLast? =
        some ("A".data, SectionVal.str [])) := by
  rw [classifyLines_append] at hok
  cases h1 : classifyLines hl' initGHState with
  | error e => rw [h1] at hok; cases hok
  | ok st1 =>
    rw [h1] at hok
    change classifyLines [mkline] st1 = Except.ok st at hok
    obtain ⟨t0, ht0⟩ := startswith_cons hmk
    have hne : mkline ≠ [] := by
      intro he
      rw [he] at hmk
      exact absurd hmk (by decide)
    have hnc : startswith "#".data (lstrip mkline) = false := by
      rw [ht0]
      simp [startswith]
    rw [classifyLines_marker mkline st1 "A".data hne hnc hmk hkey] at hok
    simp only [Except.ok.injEq] at hok
    subst hok
    have hnames : odLookup (odInsert st1.names "A".data (stripNL mkline)) "A".data =
        some (stripNL mkline) := odLookup_odInsert_self _ _ _
    refine ⟨hnames, ?_, ?_, ?_⟩
    · rw [odLookup_processSections]
      rw [odLookup_odInsert_self]
      rfl
    · intro layout comments s hs
      exact headertostring_ends_with_marker _ _ layout comments _ s hnames hs
    · intro hpre
      have hA1 : odLookup st1.header "A".data = none :=
        classifyLines_lookupA_none hl' initGHState st1 hpre h1 rfl
      have hins : odInsert st1.header "A".data [] =
          st1.header ++ [("A".data, [])] := odInsert_eq_append _ _ _ hA1
      rw [hins, processSections, List.map_append]
      simp only [List.map_cons, List.map_nil]
      rw [List.getLast?_concat]
      rfl

/-- Witness for C10 at a complete readable header (Well section with NULL
and STEP, one curve) followed by the marker: the marker text, the
empty-string `A` value, and — via the proviso, satisfied here — the
last-key position. -/
theorem C10_witness :
    odLookup (GHState.mk
      [("W".data, [" NULL. -999.25 : null".data, " STEP.M 0.5 : step".data]),
       ("C".data, [" DEPT.M : depth".data]), ("A".data, [])]
      [("W".data, "~Well".data), ("C".data, "~Curve".data),
       ("A".data, "~A".data)]
      [] (some "A".data) 6).names "A".data = some (stripNL "~A\n".data) ∧
    odLookup (processSections (GHState.mk
      [("W".data, [" NULL. -999.25 : null".data, " STEP.M 0.5 : step".data]),
       ("C".data, [" DEPT.M : depth".data]), ("A".data, [])]
      [("W".data, "~Well".data), ("C".data, "~Curve".data),
       ("A".data, "~A".data)]
      [] (some "A".data) 6).header) "A".data = some (SectionVal.str []) ∧
    (processSections (GHState.mk
      [("W".data, [" NULL. -999.25 : null".data, " STEP.M 0.5 : step".data]),
       ("C".data, [" DEPT.M : depth".data]), ("A".data, [])]
      [("W".data, "~Well".data), ("C".data, "~Curve".data),
       ("A".data, "~A".data)]
      [] (some "A".data) 6).header).getLast? =
      some ("A".data, SectionVal.str []) := by
  have h := C10_amended
    ["~Well\n".data, " NULL. -999.25 : null\n".data,
     " STEP.M 0.5 : step\n".data, "~Curve\n".data, " DEPT.M : depth\n".data]
    "~A\n".data
    (GHState.mk
      [("W".data, [" NULL. -999.25 : null".data, " STEP.M 0.5 : step".data]),
       ("C".data, [" DEPT.M : depth".data]), ("A".data, [])]
      [("W".data, "~Well".data), ("C".data, "~Curve".data),
       ("A".data, "~A".data)]
      [] (some "A".data) 6)
    (by decide) (by decide) rfl
  exact ⟨h.1, h.2.1, h.2.2.2 (by decide)⟩

end LASpy
